import Mathlib

/-!
# Amharic Imposter — verification of the game session state machine

Shallow embedding of the turn-based party-game state machine implemented by
the Telegram bot (`bot.ts`, the Telegraf variant) and the two React web-client
variants (`App.tsx`).  The bot variant carries the complete state machine
(setup → assignment → reveal → voting → result) and is the reference for the
embedded definitions; the web variants contribute the `getVoteSummary` /
`highestVote` tally used for the cross-implementation equivalence theorem.

Randomness (`Math.random`) is modelled as an externally supplied stream of
draws `rand : Nat → Nat`; the rejection-sampling loop that picks distinct
imposter indices is modelled with explicit fuel, so that its (non-)termination
is itself a provable statement.  JavaScript numbers holding user input are
modelled as `Int` (the code guards every numeric input with
`Number.isInteger`); array indices and sizes are `Nat`, with casts to `Int`
exactly where the JavaScript code compares an index against `length - 1`.
-/

namespace AmharicImposter

/-- The `stage` field of a session (bot variant wording). -/
inductive Stage where
  | idle
  | askPlayerCount
  | collectNames
  | askImposterCount
  | reveal
  | voting
  | result
deriving DecidableEq

/-- `PlayerAssignment` record: one per player, built by the assignment engine. -/
structure PlayerAssignment where
  id : Nat
  name : String
  isImposter : Bool
  word : Option String
deriving DecidableEq

/-- The mutable per-chat `Session` record of the bot. -/
structure Session where
  stage : Stage
  playerCount : Nat
  playerNames : List String
  imposterCount : Nat
  assignments : List PlayerAssignment
  selectedWord : String
  currentRevealIndex : Nat
  wordRevealed : Bool
  currentVoterIndex : Nat
  votes : List Int
deriving DecidableEq

/-- Validation failures of the state machine; every failing input leaves the
session unchanged. -/
inductive StepError where
  | OutOfRange
  | AlreadyRevealed
  | NotYetRevealed
  | InvalidTarget
  | NoSelection
  | StageMismatch
deriving DecidableEq

def MIN_PLAYERS : Nat := 3

def MAX_PLAYERS : Nat := 12

def MIN_IMPOSTERS : Nat := 1

/-- `createDefaultName`: default display name for player `index` (0-based). -/
def createDefaultName (index : Nat) : String :=
  "ተጫዋች " ++ toString (index + 1)

/-- `ensureNameList`: truncate to `count` entries, padding missing entries
with default names. -/
def ensureNameList (count : Nat) (current : List String) : List String :=
  let trimmed := current.take count
  trimmed ++ (List.range' trimmed.length (count - trimmed.length)).map createDefaultName

/-- `getMaxImposters`: `Math.max(MIN_IMPOSTERS, Math.max(0, count - 1))`. -/
def getMaxImposters (count : Nat) : Nat :=
  max MIN_IMPOSTERS (max 0 (count - 1))

/-- `resetSession`: the fresh session installed by `/newgame`. -/
def resetSession : Session :=
  { stage := Stage.askPlayerCount
    playerCount := MIN_PLAYERS
    playerNames := ensureNameList MIN_PLAYERS []
    imposterCount := MIN_IMPOSTERS
    assignments := []
    selectedWord := ""
    currentRevealIndex := 0
    wordRevealed := false
    currentVoterIndex := 0
    votes := [] }

/-- The rejection-sampling loop
`while (imposterIndices.size < imposters) imposterIndices.add(draw)`,
with the random draws given by the stream `rand` (draw number `t` is
`rand t`) and an explicit fuel bound on the number of iterations; `none`
means the loop did not finish within `fuel` iterations. -/
def drawLoop (rand : Nat → Nat) (k : Nat) : Nat → Nat → Finset Nat → Option (Finset Nat)
  | 0, _, acc => if k ≤ acc.card then some acc else none
  | fuel + 1, t, acc =>
    if k ≤ acc.card then some acc
    else drawLoop rand k fuel (t + 1) (insert (rand t) acc)

/-- `session.playerNames.map((name, index) => ({id: index, name,
isImposter: imposterIndices.has(index), word: ... ? null : word}))`,
with `i` the index of the first element of `names`. -/
def buildAssignments (S : Finset Nat) (word : String) : Nat → List String → List PlayerAssignment
  | _, [] => []
  | i, name :: rest =>
    { id := i
      name := name
      isImposter := decide (i ∈ S)
      word := if i ∈ S then none else some word } :: buildAssignments S word (i + 1) rest

/-- The mutations performed by the assignment engine once the imposter index
set `S` and the word have been drawn (bot `askImposterCount` branch, after the
`while` loop). -/
def runAssignmentEngine (s : Session) (imposters : Nat) (S : Finset Nat) (word : String) : Session :=
  { s with
    imposterCount := imposters
    assignments := buildAssignments S word 0 s.playerNames
    selectedWord := word
    votes := List.replicate s.playerCount (-1)
    currentRevealIndex := 0
    wordRevealed := false
    currentVoterIndex := 0
    stage := Stage.reveal }

/-- Text input in the `askPlayerCount` stage.  Returns the session after the
call together with the validation failure, if any. -/
def submitPlayerCount (s : Session) (n : Int) : Session × Option StepError :=
  if s.stage ≠ Stage.askPlayerCount then (s, some StepError.StageMismatch)
  else if n < (MIN_PLAYERS : Int) ∨ (MAX_PLAYERS : Int) < n then (s, some StepError.OutOfRange)
  else
    ({ s with
        playerCount := n.toNat
        playerNames := ensureNameList n.toNat s.playerNames
        stage := Stage.collectNames }, none)

/-- Text input in the `collectNames` stage; `rawNames` is the list of trimmed
non-empty tokens obtained by splitting the message on commas/newlines. -/
def submitNames (s : Session) (rawNames : List String) : Session × Option StepError :=
  if s.stage ≠ Stage.collectNames then (s, some StepError.StageMismatch)
  else
    ({ s with
        playerNames := ensureNameList s.playerCount
          (if 0 < rawNames.length then rawNames else s.playerNames)
        stage := Stage.askImposterCount }, none)

/-- Text input in the `askImposterCount` stage: validation, then the
rejection-sampling loop and the assignment engine.  The outer `Option` is
`none` when the sampling loop does not finish within `fuel` iterations. -/
def submitImposterCount (s : Session) (n : Int) (rand : Nat → Nat) (fuel : Nat)
    (word : String) : Option (Session × Option StepError) :=
  if s.stage ≠ Stage.askImposterCount then some (s, some StepError.StageMismatch)
  else if n < (MIN_IMPOSTERS : Int) ∨ (getMaxImposters s.playerCount : Int) < n then
    some (s, some StepError.OutOfRange)
  else
    match drawLoop rand n.toNat fuel 0 ∅ with
    | none => none
    | some S => some (runAssignmentEngine s n.toNat S word, none)

/-- The `reveal:show` callback. -/
def requestShow (s : Session) : Session × Option StepError :=
  if s.stage ≠ Stage.reveal then (s, some StepError.StageMismatch)
  else if s.wordRevealed then (s, some StepError.AlreadyRevealed)
  else ({ s with wordRevealed := true }, none)

/-- The `reveal:next` callback; the last-index test
`currentRevealIndex === assignments.length - 1` is a JavaScript number
comparison, hence taken over `Int`. -/
def requestNext (s : Session) : Session × Option StepError :=
  if s.stage ≠ Stage.reveal then (s, some StepError.StageMismatch)
  else if s.wordRevealed = false then (s, some StepError.NotYetRevealed)
  else if (s.currentRevealIndex : Int) = (s.assignments.length : Int) - 1 then
    ({ s with stage := Stage.voting, currentVoterIndex := 0 }, none)
  else
    ({ s with currentRevealIndex := s.currentRevealIndex + 1, wordRevealed := false }, none)

/-- The `vote:select:N` callback: `votes[currentVoterIndex] = target`. -/
def selectTarget (s : Session) (target : Int) : Session × Option StepError :=
  if s.stage ≠ Stage.voting then (s, some StepError.StageMismatch)
  else if target < 0 ∨ (s.assignments.length : Int) ≤ target then
    (s, some StepError.InvalidTarget)
  else ({ s with votes := s.votes.set s.currentVoterIndex target }, none)

/-- The `vote:confirm` callback; `votes[currentVoterIndex] === -1` is the
no-selection test, and the last-voter test is again an `Int` comparison. -/
def confirmVote (s : Session) : Session × Option StepError :=
  if s.stage ≠ Stage.voting then (s, some StepError.StageMismatch)
  else if s.votes[s.currentVoterIndex]? = some (-1) then (s, some StepError.NoSelection)
  else if (s.currentVoterIndex : Int) = (s.assignments.length : Int) - 1 then
    ({ s with stage := Stage.result }, none)
  else ({ s with currentVoterIndex := s.currentVoterIndex + 1 }, none)

/-- Bot `computeResultSummary`: `highestVote` is a fold over the cast votes,
skipping `-1`, of the occurrence count of each cast value. -/
def computeHighestVote (votes : List Int) : Nat :=
  votes.foldl
    (fun acc vote =>
      if vote == -1 then acc
      else max acc (votes.countP (fun item => item == vote)))
    0

/-- `assignments.map((player, index) => ({player, votes: votes.filter(v => v
=== index).length}))`, with `i` the index of the first element. -/
def voteSummaryAux (votes : List Int) : Nat → List PlayerAssignment → List (PlayerAssignment × Nat)
  | _, [] => []
  | i, p :: rest =>
    (p, votes.countP (fun vote => vote == (i : Int))) :: voteSummaryAux votes (i + 1) rest

/-- Web `getVoteSummary(votes, players)`. -/
def getVoteSummary (votes : List Int) (players : List PlayerAssignment) :
    List (PlayerAssignment × Nat) :=
  voteSummaryAux votes 0 players

/-- Bot `computeResultSummary`: highest vote count, per-player summary, and
the names tied at the highest count (the bot joins them with `', '`;
we keep the list). -/
def computeResultSummary (s : Session) :
    Nat × List (PlayerAssignment × Nat) × List String :=
  let highestVote := computeHighestVote s.votes
  let voteSummary := voteSummaryAux s.votes 0 s.assignments
  let mostVotedNames :=
    (voteSummary.filter (fun entry => entry.2 == highestVote && decide (0 < highestVote))).map
      (fun entry => entry.1.name)
  (highestVote, voteSummary, mostVotedNames)

/-- Web `renderResult` highest vote:
`voteSummary.reduce((max, item) => Math.max(max, item.votes), 0)`. -/
def webHighestVote (votes : List Int) (players : List PlayerAssignment) : Nat :=
  (getVoteSummary votes players).foldl (fun m item => max m item.2) 0

/-- Maximum of a list of naturals (the spec's "maximum of these counts"). -/
def listMax (l : List Nat) : Nat :=
  l.foldl max 0

/-- The discrete input events of the session (spec §6 input source, already
parsed; `reset` destroys the session and is therefore not a within-game
event). -/
inductive InputEvent where
  | setPlayerCount (n : Int)
  | setNames (rawNames : List String)
  | setImposterCount (n : Int)
  | requestShow
  | requestNext
  | selectTarget (n : Int)
  | confirmVote

/-- One external input event routed to the session; `none` only when the
assignment engine's sampling loop fails to finish within `fuel`. -/
def gameStep (rand : Nat → Nat) (fuel : Nat) (word : String) (s : Session)
    (e : InputEvent) : Option (Session × Option StepError) :=
  match e with
  | InputEvent.setPlayerCount n => some (submitPlayerCount s n)
  | InputEvent.setNames ns => some (submitNames s ns)
  | InputEvent.setImposterCount n => submitImposterCount s n rand fuel word
  | InputEvent.requestShow => some (requestShow s)
  | InputEvent.requestNext => some (requestNext s)
  | InputEvent.selectTarget n => some (selectTarget s n)
  | InputEvent.confirmVote => some (confirmVote s)

/-- Run a sequence of input events, threading the session through. -/
def runEvents (rand : Nat → Nat) (fuel : Nat) (word : String) :
    Session → List InputEvent → Option Session
  | s, [] => some s
  | s, e :: es =>
    match gameStep rand fuel word s e with
    | none => none
    | some (s', _) => runEvents rand fuel word s' es

/-- The session is inside a running game (assignment engine already ran). -/
def InGame (s : Session) : Prop :=
  s.stage = Stage.reveal ∨ s.stage = Stage.voting ∨ s.stage = Stage.result

/-- Invariants of an in-game session, established by the assignment engine:
cursors in range and the voting cursor still at `0` during the reveal phase. -/
def GameInv (s : Session) : Prop :=
  s.assignments.length = s.playerCount ∧
  1 ≤ s.playerCount ∧
  s.currentRevealIndex ≤ s.playerCount - 1 ∧
  s.currentVoterIndex ≤ s.playerCount - 1 ∧
  (s.stage = Stage.reveal → s.currentVoterIndex = 0)

/-- A concrete mid-reveal session (3 players, player 0 the imposter) used by
witnesses. -/
def demoRevealSession : Session :=
  { stage := Stage.reveal
    playerCount := 3
    playerNames := ["አበበ", "በቀለ", "ቻላ"]
    imposterCount := 1
    assignments :=
      [ { id := 0, name := "አበበ", isImposter := true, word := none }
      , { id := 1, name := "በቀለ", isImposter := false, word := some "ውሃ" }
      , { id := 2, name := "ቻላ", isImposter := false, word := some "ውሃ" } ]
    selectedWord := "ውሃ"
    currentRevealIndex := 0
    wordRevealed := false
    currentVoterIndex := 0
    votes := [-1, -1, -1] }

/-- The same game during the voting phase. -/
def demoVotingSession : Session :=
  { demoRevealSession with stage := Stage.voting, currentRevealIndex := 2, wordRevealed := true }

/-- A fresh session that has just been asked for the imposter count. -/
def demoAskImposterSession : Session :=
  { resetSession with stage := Stage.askImposterCount }

/-- The session produced from `demoAskImposterSession` by submitting imposter
count `1` with the draw stream `t % 3` (index 0 becomes the imposter). -/
def demoAssignedSession : Session :=
  { stage := Stage.reveal
    playerCount := 3
    playerNames := ["ተጫዋች 1", "ተጫዋች 2", "ተጫዋች 3"]
    imposterCount := 1
    assignments :=
      [ { id := 0, name := "ተጫዋች 1", isImposter := true, word := none }
      , { id := 1, name := "ተጫዋች 2", isImposter := false, word := some "ውሃ" }
      , { id := 2, name := "ተጫዋች 3", isImposter := false, word := some "ውሃ" } ]
    selectedWord := "ውሃ"
    currentRevealIndex := 0
    wordRevealed := false
    currentVoterIndex := 0
    votes := [-1, -1, -1] }

/-- The finished game with votes `[1, 1, 2]` (spec Scenario D). -/
def demoFinishedSession : Session :=
  { demoRevealSession with
    stage := Stage.result
    currentRevealIndex := 2
    wordRevealed := true
    currentVoterIndex := 2
    votes := [1, 1, 2] }

/-- When the sampling loop finishes starting from a set of size at most `k`,
the resulting index set has size exactly `k`. -/
theorem drawLoop_card {rand : Nat → Nat} {k : Nat} :
    ∀ (fuel t : Nat) (acc S : Finset Nat),
      drawLoop rand k fuel t acc = some S → acc.card ≤ k → S.card = k := by
  intro fuel
  induction fuel with
  | zero =>
    intro t acc S h hle
    by_cases hk : k ≤ acc.card
    · simp only [drawLoop, if_pos hk, Option.some.injEq] at h
      subst h
      omega
    · simp [drawLoop, hk] at h
  | succ fuel ih =>
    intro t acc S h hle
    by_cases hk : k ≤ acc.card
    · simp only [drawLoop, if_pos hk, Option.some.injEq] at h
      subst h
      omega
    · simp only [drawLoop, if_neg hk] at h
      have hcard := Finset.card_insert_le (rand t) acc
      exact ih (t + 1) _ S h (by omega)

/-- Every index drawn by the loop is a valid draw or came from the initial
set; in particular all indices stay below `n` when every draw is. -/
theorem drawLoop_subset {rand : Nat → Nat} {k n : Nat} (hrand : ∀ t, rand t < n) :
    ∀ (fuel t : Nat) (acc S : Finset Nat),
      drawLoop rand k fuel t acc = some S → acc ⊆ Finset.range n →
      S ⊆ Finset.range n := by
  intro fuel
  induction fuel with
  | zero =>
    intro t acc S h hsub
    by_cases hk : k ≤ acc.card
    · simp only [drawLoop, if_pos hk, Option.some.injEq] at h
      subst h
      exact hsub
    · simp [drawLoop, hk] at h
  | succ fuel ih =>
    intro t acc S h hsub
    by_cases hk : k ≤ acc.card
    · simp only [drawLoop, if_pos hk, Option.some.injEq] at h
      subst h
      exact hsub
    · simp only [drawLoop, if_neg hk] at h
      exact ih (t + 1) _ S h
        (Finset.insert_subset (Finset.mem_range.mpr (hrand t)) hsub)

/-- If the first `t + fuel` draws already contain `k` distinct values, the
loop finishes within the remaining `fuel` iterations. -/
theorem drawLoop_total {rand : Nat → Nat} {k : Nat} :
    ∀ (fuel t : Nat),
      k ≤ ((Finset.range (t + fuel)).image rand).card →
      (drawLoop rand k fuel t ((Finset.range t).image rand)).isSome = true := by
  intro fuel
  induction fuel with
  | zero =>
    intro t h
    have h' : k ≤ ((Finset.range t).image rand).card := by simpa using h
    simp [drawLoop, h']
  | succ fuel ih =>
    intro t h
    by_cases hk : k ≤ ((Finset.range t).image rand).card
    · simp [drawLoop, hk]
    · have hacc : insert (rand t) ((Finset.range t).image rand) =
          (Finset.range (t + 1)).image rand := by
        rw [Finset.range_succ, Finset.image_insert]
      have h' : k ≤ ((Finset.range (t + 1 + fuel)).image rand).card := by
        have heq : t + 1 + fuel = t + (fuel + 1) := by omega
        rw [heq]
        exact h
      simp only [drawLoop, if_neg hk, hacc]
      exact ih (t + 1) h'

/-- The loop never finishes when the random source keeps returning the same
index and two distinct indices are requested. -/
theorem drawLoop_const_zero :
    ∀ (fuel t : Nat) (acc : Finset Nat), acc ⊆ {0} →
      drawLoop (fun _ => 0) 2 fuel t acc = none := by
  intro fuel
  induction fuel with
  | zero =>
    intro t acc hsub
    have hcard : acc.card ≤ 1 := Finset.card_le_card hsub
    simp [drawLoop, show ¬ (2 ≤ acc.card) by omega]
  | succ fuel ih =>
    intro t acc hsub
    have hcard : acc.card ≤ 1 := Finset.card_le_card hsub
    simp only [drawLoop, if_neg (show ¬ (2 ≤ acc.card) by omega)]
    exact ih (t + 1) _ (Finset.insert_subset (Finset.mem_singleton_self 0) hsub)

/-- `buildAssignments` yields one assignment per player name. -/
theorem buildAssignments_length (S : Finset Nat) (word : String) :
    ∀ (names : List String) (i : Nat),
      (buildAssignments S word i names).length = names.length := by
  intro names
  induction names with
  | nil => intro i; rfl
  | cons a l ih => intro i; simp [buildAssignments, ih]

/-- The number of imposter entries among the assignments for indices
`[i, i + names.length)` is the number of those indices in `S`. -/
theorem buildAssignments_countP (S : Finset Nat) (word : String) :
    ∀ (names : List String) (i : Nat),
      (buildAssignments S word i names).countP (fun p => p.isImposter) =
        ((Finset.Ico i (i + names.length)).filter (fun j => j ∈ S)).card := by
  intro names
  induction names with
  | nil => intro i; simp [buildAssignments]
  | cons a l ih =>
    intro i
    rw [buildAssignments, List.countP_cons, ih (i + 1)]
    have hsplit : Finset.Ico i (i + (a :: l).length) =
        insert i (Finset.Ico (i + 1) (i + 1 + l.length)) := by
      ext x
      simp only [Finset.mem_Ico, Finset.mem_insert, List.length_cons]
      omega
    rw [hsplit, Finset.filter_insert]
    by_cases hmem : i ∈ S
    · have hni : i ∉ Finset.filter (fun j => j ∈ S) (Finset.Ico (i + 1) (i + 1 + l.length)) := by
        intro hcontr
        rw [Finset.mem_filter, Finset.mem_Ico] at hcontr
        obtain ⟨⟨h1, h2⟩, h3⟩ := hcontr
        omega
      simp [hmem, Finset.card_insert_of_not_mem hni]
    · simp [hmem]

/-- Starting at index `0` with all of `S` in range, the imposter count is
exactly the size of `S`. -/
theorem buildAssignments_count_of_subset (S : Finset Nat) (word : String)
    (names : List String) (hsub : S ⊆ Finset.range names.length) :
    (buildAssignments S word 0 names).countP (fun p => p.isImposter) = S.card := by
  rw [buildAssignments_countP]
  have hico : Finset.Ico 0 (0 + names.length) = Finset.range names.length := by
    rw [Finset.range_eq_Ico, Nat.zero_add]
  rw [hico, Finset.filter_mem_eq_inter, Finset.inter_eq_right.mpr hsub]

/-- Every built assignment carries the shared word exactly when it is not an
imposter. -/
theorem buildAssignments_words (S : Finset Nat) (word : String) :
    ∀ (names : List String) (i : Nat) (p : PlayerAssignment),
      p ∈ buildAssignments S word i names →
      (p.isImposter = true → p.word = none) ∧
      (p.isImposter = false → p.word = some word) := by
  intro names
  induction names with
  | nil => intro i p h; simp [buildAssignments] at h
  | cons a l ih =>
    intro i p h
    rw [buildAssignments] at h
    rcases List.mem_cons.mp h with hh | hh
    · subst hh
      by_cases hmem : i ∈ S <;> simp [hmem]
    · exact ih (i + 1) p hh

/-- C6: in the `Revealing` stage with `wordRevealed = false`, `requestNext`
fails with `NotYetRevealed` and leaves the session (in particular
`revealIndex`) unchanged. -/
theorem claim6_next_requires_reveal (s : Session) (h1 : s.stage = Stage.reveal)
    (h2 : s.wordRevealed = false) :
    requestNext s = (s, some StepError.NotYetRevealed) := by
  simp [requestNext, h1, h2]

theorem claim6_witness :
    demoRevealSession.stage = Stage.reveal ∧
    demoRevealSession.wordRevealed = false ∧
    requestNext demoRevealSession = (demoRevealSession, some StepError.NotYetRevealed) :=
  ⟨rfl, rfl, claim6_next_requires_reveal demoRevealSession rfl rfl⟩

/-- C7: in the `AwaitingPlayerCount` stage, an integer outside
`[MIN_PLAYERS, MAX_PLAYERS] = [3, 12]` fails with `OutOfRange` and leaves the
session unchanged. -/
theorem claim7_player_count_out_of_range (s : Session) (n : Int)
    (h1 : s.stage = Stage.askPlayerCount) (h2 : n < 3 ∨ 12 < n) :
    submitPlayerCount s n = (s, some StepError.OutOfRange) := by
  have hc : n < ((MIN_PLAYERS : Nat) : Int) ∨ ((MAX_PLAYERS : Nat) : Int) < n := by
    unfold MIN_PLAYERS MAX_PLAYERS
    omega
  simp [submitPlayerCount, h1, hc]

theorem claim7_witness :
    resetSession.stage = Stage.askPlayerCount ∧
    ((2 : Int) < 3 ∨ 12 < (2 : Int)) ∧
    submitPlayerCount resetSession 2 = (resetSession, some StepError.OutOfRange) :=
  ⟨rfl, by decide, claim7_player_count_out_of_range resetSession 2 rfl (by decide)⟩

/-- C8: in the `AwaitingImposterCount` stage (where `playerCount ≥ 3`), an
integer outside `[1, playerCount - 1]` fails with `OutOfRange` and leaves the
session unchanged; in particular `n = playerCount` fails. -/
theorem claim8_imposter_count_out_of_range (s : Session) (n : Int)
    (rand : Nat → Nat) (fuel : Nat) (word : String)
    (h1 : s.stage = Stage.askImposterCount) (hpc : 3 ≤ s.playerCount)
    (h2 : n < 1 ∨ (s.playerCount : Int) - 1 < n) :
    submitImposterCount s n rand fuel word = some (s, some StepError.OutOfRange) := by
  have hc : n < ((MIN_IMPOSTERS : Nat) : Int) ∨ ((getMaxImposters s.playerCount : Nat) : Int) < n := by
    simp only [MIN_IMPOSTERS, getMaxImposters]
    omega
  simp [submitImposterCount, h1, hc]

theorem claim8_witness :
    demoAskImposterSession.stage = Stage.askImposterCount ∧
    3 ≤ demoAskImposterSession.playerCount ∧
    ((3 : Int) < 1 ∨ (demoAskImposterSession.playerCount : Int) - 1 < 3) ∧
    submitImposterCount demoAskImposterSession 3 (fun _ => 0) 1 "ውሃ" =
      some (demoAskImposterSession, some StepError.OutOfRange) :=
  ⟨rfl, by decide, by decide,
    claim8_imposter_count_out_of_range demoAskImposterSession 3 (fun _ => 0) 1 "ውሃ"
      rfl (by decide) (by decide)⟩

/-- C1: for a valid setup (`3 ≤ n ≤ 12` players, `1 ≤ k ≤ n - 1` imposters),
whenever the assignment engine completes, the `assignments` sequence has
length `n` and exactly `k` entries with `isImposter = true`. -/
theorem claim1_imposter_count (s s' : Session) (n k : Nat) (rand : Nat → Nat)
    (fuel : Nat) (word : String)
    (hn3 : 3 ≤ n) (hn12 : n ≤ 12) (hk1 : 1 ≤ k) (hkn : k ≤ n - 1)
    (hpc : s.playerCount = n) (hnames : s.playerNames.length = n)
    (hrand : ∀ t, rand t < n)
    (hrun : submitImposterCount s (k : Int) rand fuel word = some (s', none)) :
    s'.assignments.length = n ∧
    s'.assignments.countP (fun p => p.isImposter) = k := by
  unfold submitImposterCount at hrun
  split at hrun
  · simp at hrun
  · split at hrun
    · simp at hrun
    · split at hrun
      · exact absurd hrun (by simp)
      · rename_i S heq
        simp only [Option.some.injEq, Prod.mk.injEq] at hrun
        obtain ⟨hs', -⟩ := hrun
        rw [Int.toNat_natCast] at heq
        have hcard : S.card = k := drawLoop_card fuel 0 ∅ S heq (by simp)
        have hsub : S ⊆ Finset.range n := drawLoop_subset hrand fuel 0 ∅ S heq (by simp)
        subst hs'
        constructor
        · rw [runAssignmentEngine]
          simp only
          rw [buildAssignments_length, hnames]
        · rw [runAssignmentEngine]
          simp only [Int.toNat_natCast]
          rw [buildAssignments_count_of_subset S word s.playerNames (by rw [hnames]; exact hsub)]
          exact hcard

theorem claim1_witness :
    (∀ t, (fun u => u % 3) t < 3) ∧
    submitImposterCount demoAskImposterSession ((1 : Nat) : Int) (fun u => u % 3) 1 "ውሃ" =
      some (demoAssignedSession, none) ∧
    demoAssignedSession.assignments.length = 3 ∧
    demoAssignedSession.assignments.countP (fun p => p.isImposter) = 1 := by
  have hrand : ∀ t, (fun u => u % 3) t < 3 := fun t => Nat.mod_lt t (by decide)
  have hrun : submitImposterCount demoAskImposterSession ((1 : Nat) : Int) (fun u => u % 3) 1 "ውሃ" =
      some (demoAssignedSession, none) := by decide
  exact ⟨hrand, hrun,
    claim1_imposter_count demoAskImposterSession demoAssignedSession 3 1 (fun u => u % 3) 1 "ውሃ"
      (by decide) (by decide) (by decide) (by decide) (by decide) (by decide) hrand hrun⟩

/-- C2: whenever the assignment engine completes, every non-imposter's `word`
is the drawn `selectedWord` and every imposter's `word` is `null`. -/
theorem claim2_word_assignment (s s' : Session) (k : Int) (rand : Nat → Nat)
    (fuel : Nat) (word : String)
    (hrun : submitImposterCount s k rand fuel word = some (s', none)) :
    ∀ p ∈ s'.assignments,
      (p.isImposter = false → p.word = some s'.selectedWord) ∧
      (p.isImposter = true → p.word = none) := by
  unfold submitImposterCount at hrun
  split at hrun
  · simp at hrun
  · split at hrun
    · simp at hrun
    · split at hrun
      · exact absurd hrun (by simp)
      · rename_i S heq
        simp only [Option.some.injEq, Prod.mk.injEq] at hrun
        obtain ⟨hs', -⟩ := hrun
        subst hs'
        intro p hp
        rw [runAssignmentEngine] at hp ⊢
        simp only at hp ⊢
        have h := buildAssignments_words S word s.playerNames 0 p hp
        exact ⟨h.2, h.1⟩

theorem claim2_witness :
    submitImposterCount demoAskImposterSession ((1 : Nat) : Int) (fun u => u % 3) 1 "ውሃ" =
      some (demoAssignedSession, none) ∧
    ∀ p ∈ demoAssignedSession.assignments,
      (p.isImposter = false → p.word = some demoAssignedSession.selectedWord) ∧
      (p.isImposter = true → p.word = none) := by
  have hrun : submitImposterCount demoAskImposterSession ((1 : Nat) : Int) (fun u => u % 3) 1 "ውሃ" =
      some (demoAssignedSession, none) := by decide
  exact ⟨hrun,
    claim2_word_assignment demoAskImposterSession demoAssignedSession ((1 : Nat) : Int)
      (fun u => u % 3) 1 "ውሃ" hrun⟩

/-- C3 (counterexample): the rejection-sampling loop does *not* terminate for
every possible draw sequence.  With 3 players and 2 imposters (a valid input,
all draws below the player count) the constant sequence `0, 0, 0, …` never
yields two distinct indices, so no amount of fuel makes the loop finish. -/
theorem claim3_counterexample :
    (∀ t : Nat, (fun _ : Nat => (0 : Nat)) t < 3) ∧ 2 < 3 ∧
    ¬ ∃ fuel, (drawLoop (fun _ => 0) 2 fuel 0 ∅).isSome = true := by
  refine ⟨fun t => Nat.zero_lt_succ 2, by decide, ?_⟩
  rintro ⟨fuel, hf⟩
  rw [drawLoop_const_zero fuel 0 ∅ (by simp)] at hf
  simp at hf

/-- C3 (amended): for a valid input (`k < n`, every draw below `n`), the
rejection-sampling loop terminates — collecting exactly `k` distinct indices,
all below `n` — for every draw sequence whose first `m` draws already contain
`k` distinct values (which a uniform random source produces with probability
one); it needs at most `m` iterations. -/
theorem claim3_loop_terminates (n k m : Nat) (rand : Nat → Nat)
    (hkn : k < n) (hrand : ∀ t, rand t < n)
    (hdistinct : k ≤ ((Finset.range m).image rand).card) :
    ∃ S, drawLoop rand k m 0 ∅ = some S ∧ S.card = k ∧ S ⊆ Finset.range n := by
  have htot := drawLoop_total m 0 (by simpa using hdistinct)
  rw [show ((Finset.range 0).image rand) = (∅ : Finset Nat) by simp] at htot
  obtain ⟨S, hS⟩ := Option.isSome_iff_exists.mp htot
  exact ⟨S, hS, drawLoop_card m 0 ∅ S hS (by simp),
    drawLoop_subset hrand m 0 ∅ S hS (by simp)⟩

theorem claim3_witness :
    2 < 3 ∧ (∀ t, (fun u => u % 3) t < 3) ∧
    2 ≤ ((Finset.range 2).image (fun u => u % 3)).card ∧
    ∃ S, drawLoop (fun u => u % 3) 2 2 0 ∅ = some S ∧ S.card = 2 ∧ S ⊆ Finset.range 3 := by
  have hrand : ∀ t, (fun u => u % 3) t < 3 := fun t => Nat.mod_lt t (by decide)
  exact ⟨by decide, hrand, by decide,
    claim3_loop_terminates 3 2 2 (fun u => u % 3) (by decide) hrand (by decide)⟩

theorem submitPlayerCount_stage_mismatch (s : Session) (n : Int)
    (h : s.stage ≠ Stage.askPlayerCount) :
    submitPlayerCount s n = (s, some StepError.StageMismatch) := by
  unfold submitPlayerCount
  rw [if_pos h]

theorem submitNames_stage_mismatch (s : Session) (rawNames : List String)
    (h : s.stage ≠ Stage.collectNames) :
    submitNames s rawNames = (s, some StepError.StageMismatch) := by
  unfold submitNames
  rw [if_pos h]

theorem submitImposterCount_stage_mismatch (s : Session) (n : Int) (rand : Nat → Nat)
    (fuel : Nat) (word : String) (h : s.stage ≠ Stage.askImposterCount) :
    submitImposterCount s n rand fuel word = some (s, some StepError.StageMismatch) := by
  unfold submitImposterCount
  rw [if_pos h]

/-- Exhaustive case analysis of `requestShow`. -/
theorem requestShow_cases (s : Session) :
    requestShow s = (s, some StepError.StageMismatch) ∨
    requestShow s = (s, some StepError.AlreadyRevealed) ∨
    requestShow s = ({ s with wordRevealed := true }, none) := by
  unfold requestShow
  split_ifs with h1 h2
  · exact Or.inl rfl
  · exact Or.inr (Or.inl rfl)
  · exact Or.inr (Or.inr rfl)

/-- Exhaustive case analysis of `requestNext`. -/
theorem requestNext_cases (s : Session) :
    requestNext s = (s, some StepError.StageMismatch) ∨
    requestNext s = (s, some StepError.NotYetRevealed) ∨
    (s.stage = Stage.reveal ∧
      requestNext s = ({ s with stage := Stage.voting, currentVoterIndex := 0 }, none)) ∨
    (s.stage = Stage.reveal ∧
      ¬ (s.currentRevealIndex : Int) = (s.assignments.length : Int) - 1 ∧
      requestNext s =
        ({ s with currentRevealIndex := s.currentRevealIndex + 1, wordRevealed := false }, none)) := by
  unfold requestNext
  split_ifs with h1 h2 h3
  · exact Or.inl rfl
  · exact Or.inr (Or.inl rfl)
  · exact Or.inr (Or.inr (Or.inl ⟨not_not.mp h1, rfl⟩))
  · exact Or.inr (Or.inr (Or.inr ⟨not_not.mp h1, h3, rfl⟩))

/-- Exhaustive case analysis of `selectTarget`. -/
theorem selectTarget_cases (s : Session) (t : Int) :
    selectTarget s t = (s, some StepError.StageMismatch) ∨
    selectTarget s t = (s, some StepError.InvalidTarget) ∨
    selectTarget s t = ({ s with votes := s.votes.set s.currentVoterIndex t }, none) := by
  unfold selectTarget
  split_ifs with h1 h2
  · exact Or.inl rfl
  · exact Or.inr (Or.inl rfl)
  · exact Or.inr (Or.inr rfl)

/-- Exhaustive case analysis of `confirmVote`. -/
theorem confirmVote_cases (s : Session) :
    confirmVote s = (s, some StepError.StageMismatch) ∨
    confirmVote s = (s, some StepError.NoSelection) ∨
    (s.stage = Stage.voting ∧ confirmVote s = ({ s with stage := Stage.result }, none)) ∨
    (s.stage = Stage.voting ∧
      ¬ (s.currentVoterIndex : Int) = (s.assignments.length : Int) - 1 ∧
      confirmVote s = ({ s with currentVoterIndex := s.currentVoterIndex + 1 }, none)) := by
  unfold confirmVote
  split_ifs with h1 h2 h3
  · exact Or.inl rfl
  · exact Or.inr (Or.inl rfl)
  · exact Or.inr (Or.inr (Or.inl ⟨not_not.mp h1, rfl⟩))
  · exact Or.inr (Or.inr (Or.inr ⟨not_not.mp h1, h3, rfl⟩))

/-- Single-step preservation: one in-game input event never decreases either
cursor, preserves the player count and the in-game invariants. -/
theorem gameStep_preserves (rand : Nat → Nat) (fuel : Nat) (word : String)
    (s : Session) (e : InputEvent) (s' : Session) (err : Option StepError)
    (hin : InGame s) (hinv : GameInv s)
    (hstep : gameStep rand fuel word s e = some (s', err)) :
    s.currentRevealIndex ≤ s'.currentRevealIndex ∧
    s.currentVoterIndex ≤ s'.currentVoterIndex ∧
    s'.playerCount = s.playerCount ∧ InGame s' ∧ GameInv s' := by
  obtain ⟨hlen, hpc1, hri, hvi, hrv⟩ := hinv
  have hst1 : s.stage ≠ Stage.askPlayerCount := by
    rcases hin with h | h | h <;> simp [h]
  have hst2 : s.stage ≠ Stage.collectNames := by
    rcases hin with h | h | h <;> simp [h]
  have hst3 : s.stage ≠ Stage.askImposterCount := by
    rcases hin with h | h | h <;> simp [h]
  cases e with
  | setPlayerCount n =>
    rw [gameStep, submitPlayerCount_stage_mismatch s n hst1] at hstep
    simp only [Option.some.injEq, Prod.mk.injEq] at hstep
    obtain ⟨rfl, -⟩ := hstep
    exact ⟨le_refl _, le_refl _, rfl, hin, hlen, hpc1, hri, hvi, hrv⟩
  | setNames ns =>
    rw [gameStep, submitNames_stage_mismatch s ns hst2] at hstep
    simp only [Option.some.injEq, Prod.mk.injEq] at hstep
    obtain ⟨rfl, -⟩ := hstep
    exact ⟨le_refl _, le_refl _, rfl, hin, hlen, hpc1, hri, hvi, hrv⟩
  | setImposterCount n =>
    rw [gameStep, submitImposterCount_stage_mismatch s n rand fuel word hst3] at hstep
    simp only [Option.some.injEq, Prod.mk.injEq] at hstep
    obtain ⟨rfl, -⟩ := hstep
    exact ⟨le_refl _, le_refl _, rfl, hin, hlen, hpc1, hri, hvi, hrv⟩
  | requestShow =>
    rw [gameStep] at hstep
    rcases requestShow_cases s with heq | heq | heq <;>
      rw [heq] at hstep <;>
      simp only [Option.some.injEq, Prod.mk.injEq] at hstep <;>
      obtain ⟨rfl, -⟩ := hstep
    · exact ⟨le_refl _, le_refl _, rfl, hin, hlen, hpc1, hri, hvi, hrv⟩
    · exact ⟨le_refl _, le_refl _, rfl, hin, hlen, hpc1, hri, hvi, hrv⟩
    · exact ⟨le_refl _, le_refl _, rfl, hin, hlen, hpc1, hri, hvi, hrv⟩
  | requestNext =>
    rw [gameStep] at hstep
    rcases requestNext_cases s with heq | heq | ⟨hst, heq⟩ | ⟨hst, hlast, heq⟩ <;>
      rw [heq] at hstep <;>
      simp only [Option.some.injEq, Prod.mk.injEq] at hstep <;>
      obtain ⟨rfl, -⟩ := hstep
    · exact ⟨le_refl _, le_refl _, rfl, hin, hlen, hpc1, hri, hvi, hrv⟩
    · exact ⟨le_refl _, le_refl _, rfl, hin, hlen, hpc1, hri, hvi, hrv⟩
    · exact ⟨le_refl _, le_of_eq (hrv hst), rfl, Or.inr (Or.inl rfl),
        hlen, hpc1, hri, Nat.zero_le _, fun hc => rfl⟩
    · exact ⟨Nat.le_succ _, le_refl _, rfl, Or.inl hst,
        hlen, hpc1, by dsimp only; omega, hvi, fun hc => hrv hc⟩
  | selectTarget t =>
    rw [gameStep] at hstep
    rcases selectTarget_cases s t with heq | heq | heq <;>
      rw [heq] at hstep <;>
      simp only [Option.some.injEq, Prod.mk.injEq] at hstep <;>
      obtain ⟨rfl, -⟩ := hstep
    · exact ⟨le_refl _, le_refl _, rfl, hin, hlen, hpc1, hri, hvi, hrv⟩
    · exact ⟨le_refl _, le_refl _, rfl, hin, hlen, hpc1, hri, hvi, hrv⟩
    · exact ⟨le_refl _, le_refl _, rfl, hin, hlen, hpc1, hri, hvi, hrv⟩
  | confirmVote =>
    rw [gameStep] at hstep
    rcases confirmVote_cases s with heq | heq | ⟨hst, heq⟩ | ⟨hst, hlast, heq⟩ <;>
      rw [heq] at hstep <;>
      simp only [Option.some.injEq, Prod.mk.injEq] at hstep <;>
      obtain ⟨rfl, -⟩ := hstep
    · exact ⟨le_refl _, le_refl _, rfl, hin, hlen, hpc1, hri, hvi, hrv⟩
    · exact ⟨le_refl _, le_refl _, rfl, hin, hlen, hpc1, hri, hvi, hrv⟩
    · exact ⟨le_refl _, le_refl _, rfl, Or.inr (Or.inr rfl),
        hlen, hpc1, hri, hvi, fun hc => by cases hc⟩
    · exact ⟨le_refl _, Nat.le_succ _, rfl, Or.inr (Or.inl hst),
        hlen, hpc1, hri, by dsimp only; omega,
        fun hc => by
          have hc' : s.stage = Stage.reveal := hc
          rw [hst] at hc'
          cases hc'⟩

/-- C4: within a single game (the session is in the reveal/voting/result
phases with the engine-established invariants), every sequence of input
events leaves `revealIndex` and `voterIndex` monotonically non-decreasing,
and neither ever exceeds `playerCount - 1`. -/
theorem claim4_progress (rand : Nat → Nat) (fuel : Nat) (word : String)
    (events : List InputEvent) :
    ∀ (s s' : Session), InGame s → GameInv s →
      runEvents rand fuel word s events = some s' →
      s.currentRevealIndex ≤ s'.currentRevealIndex ∧
      s.currentVoterIndex ≤ s'.currentVoterIndex ∧
      s'.currentRevealIndex ≤ s'.playerCount - 1 ∧
      s'.currentVoterIndex ≤ s'.playerCount - 1 := by
  induction events with
  | nil =>
    intro s s' hin hinv hrun
    simp only [runEvents, Option.some.injEq] at hrun
    subst hrun
    exact ⟨le_refl _, le_refl _, hinv.2.2.1, hinv.2.2.2.1⟩
  | cons e es ih =>
    intro s s' hin hinv hrun
    simp only [runEvents] at hrun
    cases hg : gameStep rand fuel word s e with
    | none => rw [hg] at hrun; cases hrun
    | some pair =>
      obtain ⟨s1, err⟩ := pair
      rw [hg] at hrun
      obtain ⟨h1, h2, hpc, hin1, hinv1⟩ :=
        gameStep_preserves rand fuel word s e s1 err hin hinv hg
      obtain ⟨g1, g2, g3, g4⟩ := ih s1 s' hin1 hinv1 hrun
      exact ⟨le_trans h1 g1, le_trans h2 g2, g3, g4⟩

theorem claim4_witness :
    InGame demoRevealSession ∧ GameInv demoRevealSession ∧
    runEvents (fun _ => 0) 0 "ውሃ" demoRevealSession
        [InputEvent.requestShow, InputEvent.requestNext] =
      some { demoRevealSession with currentRevealIndex := 1 } ∧
    (demoRevealSession.currentRevealIndex ≤
        ({ demoRevealSession with currentRevealIndex := 1 } : Session).currentRevealIndex ∧
      demoRevealSession.currentVoterIndex ≤
        ({ demoRevealSession with currentRevealIndex := 1 } : Session).currentVoterIndex ∧
      ({ demoRevealSession with currentRevealIndex := 1 } : Session).currentRevealIndex ≤
        ({ demoRevealSession with currentRevealIndex := 1 } : Session).playerCount - 1 ∧
      ({ demoRevealSession with currentRevealIndex := 1 } : Session).currentVoterIndex ≤
        ({ demoRevealSession with currentRevealIndex := 1 } : Session).playerCount - 1) := by
  have hin : InGame demoRevealSession := Or.inl rfl
  have hinv : GameInv demoRevealSession := by
    unfold GameInv
    refine ⟨by decide, by decide, by decide, by decide, fun _ => by decide⟩
  have hrun : runEvents (fun _ => 0) 0 "ውሃ" demoRevealSession
      [InputEvent.requestShow, InputEvent.requestNext] =
      some { demoRevealSession with currentRevealIndex := 1 } := by decide
  exact ⟨hin, hinv, hrun,
    claim4_progress (fun _ => 0) 0 "ውሃ" [InputEvent.requestShow, InputEvent.requestNext]
      demoRevealSession { demoRevealSession with currentRevealIndex := 1 } hin hinv hrun⟩

theorem foldl_max_eq (l : List Nat) : ∀ a : Nat, l.foldl max a = max a (listMax l) := by
  induction l with
  | nil => intro a; simp [listMax]
  | cons x l ih =>
    intro a
    simp only [listMax, List.foldl_cons]
    rw [ih (max a x), ih (max 0 x)]
    omega

theorem listMax_cons (x : Nat) (l : List Nat) : listMax (x :: l) = max x (listMax l) := by
  have h := foldl_max_eq l (max 0 x)
  simp only [listMax, List.foldl_cons] at *
  omega

theorem le_listMax {l : List Nat} {x : Nat} (h : x ∈ l) : x ≤ listMax l := by
  induction l with
  | nil => cases h
  | cons a l ih =>
    rw [listMax_cons]
    rcases List.mem_cons.mp h with rfl | hmem
    · omega
    · have := ih hmem
      omega

theorem listMax_le {l : List Nat} {b : Nat} (h : ∀ x ∈ l, x ≤ b) : listMax l ≤ b := by
  induction l with
  | nil => simp [listMax]
  | cons a l ih =>
    rw [listMax_cons]
    have h1 := h a (List.mem_cons_self a l)
    have h2 := ih (fun x hx => h x (List.mem_cons_of_mem a hx))
    omega

/-- The bot's `reduce` computing `highestVote` equals the maximum occurrence
count over the cast (non `-1`) votes. -/
theorem computeHighestVote_fold (votes : List Int) :
    ∀ (l : List Int) (acc : Nat),
      l.foldl (fun acc vote => if vote == -1 then acc
        else max acc (votes.countP (fun item => item == vote))) acc
      = max acc (listMax ((l.filter (fun v => !(v == -1))).map
          (fun v => votes.countP (fun item => item == v)))) := by
  intro l
  induction l with
  | nil => intro acc; simp [listMax]
  | cons v l ih =>
    intro acc
    simp only [List.foldl_cons]
    by_cases hv : (v == -1) = true
    · rw [if_pos hv, ih acc]
      have hfil : (v :: l).filter (fun u => !(u == -1)) = l.filter (fun u => !(u == -1)) := by
        simp [List.filter_cons, hv]
      rw [hfil]
    · rw [if_neg hv, ih (max acc (votes.countP (fun item => item == v)))]
      have hfil : (v :: l).filter (fun u => !(u == -1)) =
          v :: l.filter (fun u => !(u == -1)) := by
        simp [List.filter_cons, hv]
      rw [hfil, List.map_cons, listMax_cons]
      omega

theorem computeHighestVote_eq (votes : List Int) :
    computeHighestVote votes = listMax ((votes.filter (fun v => !(v == -1))).map
      (fun v => votes.countP (fun item => item == v))) := by
  unfold computeHighestVote
  rw [computeHighestVote_fold votes votes 0]
  omega

/-- The vote counts listed by the summary, as a function of the index. -/
theorem voteSummaryAux_map_snd (votes : List Int) :
    ∀ (players : List PlayerAssignment) (i : Nat),
      (voteSummaryAux votes i players).map (fun e => e.2) =
        (List.range' i players.length).map
          (fun (j : Nat) => votes.countP (fun item => item == (j : Int))) := by
  intro players
  induction players with
  | nil => intro i; simp [voteSummaryAux]
  | cons p l ih =>
    intro i
    simp only [voteSummaryAux, List.map_cons, List.length_cons, List.range'_succ]
    rw [ih (i + 1)]

/-- Entry `j` of the summary pairs player `j` with the number of votes cast
for index `j`. -/
theorem voteSummaryAux_getElem (votes : List Int) :
    ∀ (players : List PlayerAssignment) (i j : Nat),
      (voteSummaryAux votes i players)[j]? =
        (players[j]?).map
          (fun p => (p, votes.countP (fun item => item == ((i + j : Nat) : Int)))) := by
  intro players
  induction players with
  | nil => intro i j; simp [voteSummaryAux]
  | cons p l ih =>
    intro i j
    cases j with
    | zero => simp [voteSummaryAux]
    | succ j' =>
      have harith : i + 1 + j' = i + (j' + 1) := by omega
      simp only [voteSummaryAux, List.getElem?_cons_succ, ih (i + 1) j', harith]

/-- Core tally fact: when every vote is `-1` or a valid player index, the
bot's fold equals the maximum over all player indices of the per-index
count. -/
theorem highestVote_eq_summaryMax (votes : List Int) (players : List PlayerAssignment)
    (h : ∀ v ∈ votes, v = -1 ∨ (0 ≤ v ∧ v < (players.length : Int))) :
    computeHighestVote votes =
      listMax ((voteSummaryAux votes 0 players).map (fun e => e.2)) := by
  rw [computeHighestVote_eq, voteSummaryAux_map_snd]
  rw [← List.range_eq_range']
  apply Nat.le_antisymm
  · apply listMax_le
    intro x hx
    obtain ⟨v, hvmem, rfl⟩ := List.mem_map.mp hx
    obtain ⟨hvv, hne⟩ := List.mem_filter.mp hvmem
    rcases h v hvv with h1 | ⟨h2, h3⟩
    · rw [h1] at hne
      simp at hne
    · apply le_listMax
      apply List.mem_map.mpr
      have hlt : v.toNat < players.length := by omega
      refine ⟨v.toNat, List.mem_range.mpr hlt, ?_⟩
      have hcast : ((v.toNat : Nat) : Int) = v := Int.toNat_of_nonneg h2
      rw [hcast]
  · apply listMax_le
    intro x hx
    obtain ⟨j, hjmem, rfl⟩ := List.mem_map.mp hx
    by_cases hz : votes.countP (fun item => item == (j : Int)) = 0
    · rw [hz]
      exact Nat.zero_le _
    · have hpos : 0 < votes.countP (fun item => item == (j : Int)) :=
        Nat.pos_of_ne_zero hz
      obtain ⟨v, hvmem, hveq⟩ := List.countP_pos_iff.mp hpos
      have hv : v = (j : Int) := by simpa using hveq
      apply le_listMax
      apply List.mem_map.mpr
      refine ⟨v, List.mem_filter.mpr ⟨hvmem, ?_⟩, ?_⟩
      · have hne : ¬ ((j : Int) = -1) := by omega
        rw [hv]
        simp [hne]
      · rw [hv]

/-- A cast vote makes the highest count at least one. -/
theorem computeHighestVote_pos (votes : List Int)
    (hne : votes ≠ []) (hval : ∀ v ∈ votes, 0 ≤ v) :
    1 ≤ computeHighestVote votes := by
  obtain ⟨v, hvmem⟩ := List.exists_mem_of_ne_nil votes hne
  rw [computeHighestVote_eq]
  have hcnt : 0 < votes.countP (fun item => item == v) :=
    List.countP_pos_iff.mpr ⟨v, hvmem, by simp⟩
  have hmem : votes.countP (fun item => item == v) ∈
      ((votes.filter (fun u => !(u == -1))).map
        (fun u => votes.countP (fun item => item == u))) := by
    apply List.mem_map.mpr
    refine ⟨v, List.mem_filter.mpr ⟨hvmem, ?_⟩, rfl⟩
    have h0 := hval v hvmem
    have hne' : ¬ (v = -1) := by omega
    simpa using hne'
  have := le_listMax hmem
  omega

/-- C5: the result computation is a pure function of the final session:
entry `j` of the summary counts the votes equal to `j`, `highestVote` is the
maximum of these counts and is at least `1` once every player has voted, and
the most-accused list is exactly the players (ties included) whose count
equals the maximum. -/
theorem claim5_result_summary (s : Session)
    (hne : s.votes ≠ [])
    (hval : ∀ v ∈ s.votes, 0 ≤ v ∧ v < (s.assignments.length : Int)) :
    (∀ j : Nat, ((computeResultSummary s).2.1)[j]? =
        (s.assignments[j]?).map
          (fun p => (p, s.votes.countP (fun item => item == (j : Int))))) ∧
    (computeResultSummary s).1 =
      listMax (((computeResultSummary s).2.1).map (fun e => e.2)) ∧
    1 ≤ (computeResultSummary s).1 ∧
    (computeResultSummary s).2.2 =
      (((computeResultSummary s).2.1).filter
        (fun e => e.2 == (computeResultSummary s).1)).map (fun e => e.1.name) := by
  have hpos : 1 ≤ computeHighestVote s.votes :=
    computeHighestVote_pos s.votes hne (fun v hv => (hval v hv).1)
  refine ⟨?_, ?_, ?_, ?_⟩
  · intro j
    simp only [computeResultSummary]
    rw [voteSummaryAux_getElem]
    simp
  · simp only [computeResultSummary]
    exact highestVote_eq_summaryMax s.votes s.assignments
      (fun v hv => Or.inr (hval v hv))
  · simpa only [computeResultSummary] using hpos
  · simp only [computeResultSummary]
    congr 1
    apply List.filter_congr
    intro e he
    rw [decide_eq_true (by omega : 0 < computeHighestVote s.votes), Bool.and_true]

theorem claim5_witness :
    demoFinishedSession.votes ≠ [] ∧
    (∀ v ∈ demoFinishedSession.votes,
      0 ≤ v ∧ v < (demoFinishedSession.assignments.length : Int)) ∧
    ((computeResultSummary demoFinishedSession).1 = 2 ∧
      ((computeResultSummary demoFinishedSession).2.1).map (fun e => e.2) = [0, 2, 1] ∧
      (computeResultSummary demoFinishedSession).2.2 = ["በቀለ"]) ∧
    ((∀ j : Nat, ((computeResultSummary demoFinishedSession).2.1)[j]? =
        (demoFinishedSession.assignments[j]?).map
          (fun p => (p, demoFinishedSession.votes.countP (fun item => item == (j : Int))))) ∧
      (computeResultSummary demoFinishedSession).1 =
        listMax (((computeResultSummary demoFinishedSession).2.1).map (fun e => e.2)) ∧
      1 ≤ (computeResultSummary demoFinishedSession).1 ∧
      (computeResultSummary demoFinishedSession).2.2 =
        (((computeResultSummary demoFinishedSession).2.1).filter
          (fun e => e.2 == (computeResultSummary demoFinishedSession).1)).map
          (fun e => e.1.name)) := by
  have hne : demoFinishedSession.votes ≠ [] := by decide
  have hval : ∀ v ∈ demoFinishedSession.votes,
      0 ≤ v ∧ v < (demoFinishedSession.assignments.length : Int) := by decide
  refine ⟨hne, hval, ⟨by decide, by decide, by decide⟩, ?_⟩
  have hmain := claim5_result_summary demoFinishedSession hne hval
  refine ⟨?_, hmain.2.1, hmain.2.2.1, hmain.2.2.2⟩
  intro j
  exact hmain.1 j

/-- A valid selection during voting records the target for the current
voter. -/
theorem selectTarget_valid (s : Session) (t : Int) (hstage : s.stage = Stage.voting)
    (h0 : 0 ≤ t) (hlt : t < (s.assignments.length : Int)) :
    selectTarget s t = ({ s with votes := s.votes.set s.currentVoterIndex t }, none) := by
  unfold selectTarget
  rw [if_neg (by simp [hstage]), if_neg (by omega)]

/-- Folding a non-empty sequence of valid selections records exactly the last
one. -/
theorem foldl_selectTarget (ts : List Int) :
    ∀ (s : Session) (tLast : Int), s.stage = Stage.voting →
      (∀ t ∈ ts, 0 ≤ t ∧ t < (s.assignments.length : Int)) →
      ts.getLast? = some tLast →
      ts.foldl (fun st t => (selectTarget st t).1) s =
        { s with votes := s.votes.set s.currentVoterIndex tLast } := by
  induction ts with
  | nil =>
    intro s tLast _ _ hlast
    simp [List.getLast?] at hlast
  | cons t ts ih =>
    intro s tLast hstage hvalid hlast
    have hv0 := hvalid t (List.mem_cons_self t ts)
    have hsel := selectTarget_valid s t hstage hv0.1 hv0.2
    simp only [List.foldl_cons, hsel]
    cases ts with
    | nil =>
      have ht : t = tLast := by simpa [List.getLast?] using hlast
      subst ht
      simp [List.foldl_nil]
    | cons t2 ts2 =>
      have hlast' : (t2 :: ts2).getLast? = some tLast := by
        rwa [List.getLast?_cons_cons] at hlast
      rw [ih ({ s with votes := s.votes.set s.currentVoterIndex t }) tLast hstage
        (fun u hu => hvalid u (List.mem_cons_of_mem t hu)) hlast']
      rw [List.set_set]

/-- C9: re-selecting any number of times before confirming records exactly
one vote for the current voter — the last selection — and leaves every other
entry of `votes` unchanged. -/
theorem claim9_last_selection_wins (s : Session) (ts : List Int) (tLast : Int)
    (hstage : s.stage = Stage.voting) (hlast : ts.getLast? = some tLast)
    (hvalid : ∀ t ∈ ts, 0 ≤ t ∧ t < (s.assignments.length : Int))
    (hidx : s.currentVoterIndex < s.votes.length) :
    ts.foldl (fun st t => (selectTarget st t).1) s =
      { s with votes := s.votes.set s.currentVoterIndex tLast } ∧
    (ts.foldl (fun st t => (selectTarget st t).1) s).votes[s.currentVoterIndex]? =
      some tLast ∧
    ∀ j, j ≠ s.currentVoterIndex →
      (ts.foldl (fun st t => (selectTarget st t).1) s).votes[j]? = s.votes[j]? := by
  have hfold := foldl_selectTarget ts s tLast hstage hvalid hlast
  refine ⟨hfold, ?_, ?_⟩
  · rw [hfold]
    exact List.getElem?_set_self hidx
  · intro j hj
    rw [hfold]
    exact List.getElem?_set_ne (fun hc => hj hc.symm)

theorem claim9_witness :
    demoVotingSession.stage = Stage.voting ∧
    ([(0 : Int), 2, 1].getLast? = some 1) ∧
    (∀ t ∈ [(0 : Int), 2, 1], 0 ≤ t ∧ t < (demoVotingSession.assignments.length : Int)) ∧
    demoVotingSession.currentVoterIndex < demoVotingSession.votes.length ∧
    ([(0 : Int), 2, 1].foldl (fun st t => (selectTarget st t).1) demoVotingSession =
        { demoVotingSession with
            votes := demoVotingSession.votes.set demoVotingSession.currentVoterIndex 1 } ∧
      ([(0 : Int), 2, 1].foldl (fun st t => (selectTarget st t).1)
          demoVotingSession).votes[demoVotingSession.currentVoterIndex]? = some 1 ∧
      ∀ j, j ≠ demoVotingSession.currentVoterIndex →
        ([(0 : Int), 2, 1].foldl (fun st t => (selectTarget st t).1)
            demoVotingSession).votes[j]? = demoVotingSession.votes[j]?) := by
  refine ⟨rfl, by decide, by decide, by decide, ?_⟩
  exact claim9_last_selection_wins demoVotingSession [(0 : Int), 2, 1] 1 rfl
    (by decide) (by decide) (by decide)

/-- C10: the bot's highest-vote computation (fold over cast votes, skipping
`-1`) and the web variants' computation (maximum over all player indices of
the per-index count) agree on every votes array whose entries are `-1` or a
valid player index. -/
theorem claim10_tally_equivalence (votes : List Int) (players : List PlayerAssignment)
    (h : ∀ v ∈ votes, v = -1 ∨ (0 ≤ v ∧ v < (players.length : Int))) :
    computeHighestVote votes = webHighestVote votes players := by
  rw [highestVote_eq_summaryMax votes players h]
  unfold webHighestVote getVoteSummary listMax
  rw [List.foldl_map]

theorem claim10_witness :
    (∀ v ∈ [(-1 : Int), 2, 2, 0],
      v = -1 ∨ (0 ≤ v ∧ v < (demoRevealSession.assignments.length : Int))) ∧
    computeHighestVote [(-1 : Int), 2, 2, 0] = 2 ∧
    webHighestVote [(-1 : Int), 2, 2, 0] demoRevealSession.assignments = 2 ∧
    computeHighestVote [(-1 : Int), 2, 2, 0] =
      webHighestVote [(-1 : Int), 2, 2, 0] demoRevealSession.assignments := by
  refine ⟨by decide, by decide, by decide, ?_⟩
  exact claim10_tally_equivalence [(-1 : Int), 2, 2, 0] demoRevealSession.assignments
    (by decide)

end AmharicImposter
